import Mathlib

/-!
Verification development for `scrape_icook_keywords_to_firestore.py`.

The Python source is shallowly embedded below.  Decoded JSON documents
(the results of the standard-library `json.loads` on metadata blobs) are
modelled by the inductive type `Json`; a blob that fails to decode is
modelled as `none` in a `List (Option Json)`.  Python string values are
modelled by `String`; `str.strip()` is modelled by `pyStrip` (whitespace
is modelled as space, tab, CR, LF).  Python truthiness of decoded JSON
values is `jsonTruthy`; truthiness of an optional string is `optTruthy`.
The external page driver (Playwright) is modelled by the record `Page`
holding the results of the markup queries issued by the fallback cascade,
and the remote store by a flag plus the list of attempted upserts.
-/

set_option linter.unusedVariables false

/-- Decoded JSON values, the result of `json.loads` on a metadata blob. -/
inductive Json where
  | null : Json
  | bool (b : Bool) : Json
  | num (n : Int) : Json
  | str (s : String) : Json
  | arr (xs : List Json) : Json
  | obj (fields : List (String × Json)) : Json

/-- Python truthiness of a decoded JSON value (`if x:`). -/
def jsonTruthy : Json → Bool
  | .null => false
  | .bool b => b
  | .num n => n != 0
  | .str s => !s.isEmpty
  | .arr xs => !xs.isEmpty
  | .obj fs => !fs.isEmpty

/-- `dict.get(key)`: `some` when the key is present, `none` when absent.
A JSON `null` value is kept as `Json.null` (Python `None`). -/
def pyGet (j : Json) (k : String) : Option Json :=
  match j with
  | .obj fs => (fs.find? (fun p => p.1 == k)).map Prod.snd
  | _ => none

mutual
/-- Python `repr` of a decoded JSON value (used by `str` on non-strings). -/
def pyRepr : Json → String
  | .null => "None"
  | .bool true => "True"
  | .bool false => "False"
  | .num n => toString n
  | .str s => "\x27" ++ s ++ "\x27"
  | .arr xs => "[" ++ String.intercalate ", " (pyReprList xs) ++ "]"
  | .obj fs => "\x7b" ++ String.intercalate ", " (pyReprPairs fs) ++ "\x7d"

def pyReprList : List Json → List String
  | [] => []
  | x :: xs => pyRepr x :: pyReprList xs

def pyReprPairs : List (String × Json) → List String
  | [] => []
  | p :: xs => ("\x27" ++ p.1 ++ "\x27: " ++ pyRepr p.2) :: pyReprPairs xs
end

/-- Python `str(x)` on a decoded JSON value. -/
def pyStr : Json → String
  | .str s => s
  | v => pyRepr v

/-- Whitespace as stripped by `str.strip()` (modelled as space, tab, CR, LF). -/
def wsChar (c : Char) : Bool := c.isWhitespace

/-- `str.strip()` at the character-list level. -/
def pyStripList (l : List Char) : List Char :=
  ((l.dropWhile wsChar).reverse.dropWhile wsChar).reverse

/-- Python `str.strip()`. -/
def pyStrip (s : String) : String := ⟨pyStripList s.data⟩

/-- `ensure_str` (line 95): `str(x).strip() if x is not None else None`. -/
def ensure_str : Option Json → Option String
  | none => none
  | some .null => none
  | some v => some (pyStrip (pyStr v))

/-- Python `a or b` on two optional strings (`None` and `""` are falsy). -/
def pyOrStr (a b : Option String) : Option String :=
  match a with
  | some s => if s.isEmpty then b else some s
  | none => b

/-- Python `a or b` on two optional JSON values. -/
def pyOrJson (a b : Option Json) : Option Json :=
  match a with
  | some v => if jsonTruthy v then some v else b
  | none => b

/-- Python `a or d` with a string default (used for `title or ""`). -/
def pyOrStrD (a : Option String) (d : String) : String :=
  match a with
  | some s => if s.isEmpty then d else s
  | none => d

/-- Decimal digits of a natural number, most significant first
(Python `str` on a non-negative int, as produced by `f"{hours} ..."`).
The first argument is recursion fuel; `natDecimalL` supplies enough. -/
def natDecimalCore : Nat → Nat → List Char → List Char
  | 0, _, acc => acc
  | fuel + 1, n, acc =>
    let d := Char.ofNat (48 + n % 10)
    if n < 10 then d :: acc
    else natDecimalCore fuel (n / 10) (d :: acc)

def natDecimalL (n : Nat) : List Char := natDecimalCore (n + 1) n []

/-- Maximal digit prefix of a character list and the remainder
(the greedy step of the regex atom for one or more digits). -/
def splitDigits : List Char → List Char × List Char
  | [] => ([], [])
  | c :: cs =>
    if c.isDigit then
      let p := splitDigits cs
      (c :: p.1, p.2)
    else ([], c :: cs)

/-- Numeric value of a digit run (`int(m.group(1))`). -/
def natOfDigits (ds : List Char) : Nat :=
  ds.foldl (fun a c => a * 10 + (c.toNat - 48)) 0

def headIs (c : Char) : List Char → Bool
  | x :: _ => x == c
  | [] => false

/-- Match of the hours regex (PT, digits, H) anchored at the current
position.  The digit atom is greedy and cannot backtrack into `H`. -/
def matchPTHAt : List Char → Option Nat
  | 'P' :: 'T' :: rest =>
    let p := splitDigits rest
    if !p.1.isEmpty && headIs 'H' p.2 then some (natOfDigits p.1) else none
  | _ => none

/-- Leftmost match of `re.search` for the hours pattern (line 86). -/
def searchPTH : List Char → Option Nat
  | [] => none
  | c :: cs =>
    match matchPTHAt (c :: cs) with
    | some n => some n
    | none => searchPTH cs

/-- Match of the minutes regex (digits, M) anchored at the current position. -/
def matchDMAt (l : List Char) : Option Nat :=
  let p := splitDigits l
  if !p.1.isEmpty && headIs 'M' p.2 then some (natOfDigits p.1) else none

/-- Leftmost match of `re.search` for the minutes pattern (line 87). -/
def searchDM : List Char → Option Nat
  | [] => none
  | c :: cs =>
    match matchDMAt (c :: cs) with
    | some n => some n
    | none => searchDM cs

/-- `iso8601_duration_to_text` (lines 82-93). -/
def iso8601_duration_to_text (s : String) : Option String :=
  if s.isEmpty then none
  else if !(['P', 'T'].isPrefixOf s.data) then some s
  else
    let hours := (searchPTH s.data).getD 0
    let minutes := (searchDM s.data).getD 0
    if hours == 0 && minutes == 0 then none
    else if hours != 0 && minutes != 0 then
      some ⟨natDecimalL hours ++ (" 小時 ".data ++ (natDecimalL minutes ++ " 分鐘".data))⟩
    else if hours != 0 then some ⟨natDecimalL hours ++ " 小時".data⟩
    else some ⟨natDecimalL minutes ++ " 分鐘".data⟩

/-- `extract_image_url_from_ld` (lines 98-105), on `node.get("image")`. -/
def extract_image_url_from_ld (obj : Option Json) : Option String :=
  match obj with
  | none => none
  | some v =>
    if !jsonTruthy v then none
    else
      match v with
      | .str s => some s
      | .arr (x :: _) =>
        match x with
        | .str s => some s
        | .obj fs => ensure_str (pyGet (.obj fs) "url")
        | _ => none
      | .obj fs => ensure_str (pyGet (.obj fs) "url")
      | _ => none

/-- One item of `pick_from_list` inside `extract_steps_from_ld` (lines 109-117):
the appended string, when the item contributes one. -/
def stepOfItem (it : Json) : Option String :=
  match it with
  | .str s =>
    let t := pyStrip s
    if !t.isEmpty then some t else none
  | .obj fs =>
    match pyOrJson (pyGet (.obj fs) "text") (pyGet (.obj fs) "name") with
    | some tv =>
      if jsonTruthy tv && !(pyStrip (pyStr tv)).isEmpty then some (pyStrip (pyStr tv))
      else none
    | none => none
  | _ => none

/-- `obj.get("@type") == "HowToSection"` (line 120). -/
def isHowToSection (o : Json) : Bool :=
  match pyGet o "@type" with
  | some (.str s) => s == "HowToSection"
  | _ => false

/-- `extract_steps_from_ld` (lines 107-126), on `node.get("recipeInstructions")`. -/
def extract_steps_from_ld (obj : Option Json) : List String :=
  let raw : List String :=
    match obj with
    | some (.arr xs) => xs.filterMap stepOfItem
    | some (.obj fs) =>
      let o := Json.obj fs
      if isHowToSection o then
        match pyGet o "itemListElement" with
        | some (.arr items) => items.filterMap stepOfItem
        | _ => (stepOfItem o).toList
      else (stepOfItem o).toList
    | _ => []
  (raw.map pyStrip).filter (fun t => !t.isEmpty)

/-- The six fields accumulated by `parse_ld_json` (line 128). -/
structure ParseResult where
  title : Option String
  ingredients : List String
  time_text : Option String
  yield_info : Option String
  steps : List String
  image_url : Option String
deriving DecidableEq

/-- The initial field values of `parse_ld_json` (lines 129-134). -/
def initParse : ParseResult := ⟨none, [], none, none, [], none⟩

/-- Python truthiness of an optional string (`if not title:`). -/
def optTruthy : Option String → Bool
  | none => false
  | some s => !s.isEmpty

/-- `is_recipe` (line 157): the declared type equals or includes "Recipe". -/
def isRecipe (node : Json) : Bool :=
  match pyGet node "@type" with
  | some (.str s) => s == "Recipe"
  | some (.arr xs) => xs.any (fun j => match j with | .str s => s == "Recipe" | _ => false)
  | _ => false

def isDict : Json → Bool
  | .obj _ => true
  | _ => false

/-- Candidate nodes of one member of `candidates` (lines 144-153):
unwrap a linked-graph container, a list, or the object itself. -/
def objNodes (o : Json) : List Json :=
  match o with
  | .obj fs =>
    match pyGet (.obj fs) "@graph" with
    | some (.arr gs) => gs.filter isDict
    | _ => [Json.obj fs]
  | .arr xs => xs.filter isDict
  | _ => []

/-- All candidate nodes of one decoded blob (line 142 plus `objNodes`). -/
def ldNodes (data : Json) : List Json :=
  (match data with
   | .arr xs => xs
   | d => [d]).flatMap objNodes

/-- All candidate nodes of the blob sequence, in blob order then node
order; an undecodable blob (`none`) contributes nothing (lines 136-140). -/
def allNodes (blobs : List (Option Json)) : List Json :=
  blobs.flatMap (fun b =>
    match b with
    | none => []
    | some d => ldNodes d)

/-- The title candidate of a node (line 162). -/
def titleCand (node : Json) : Option String := ensure_str (pyGet node "name")

/-- The ingredients candidate of a node (lines 165-167). -/
def ingredientsCand (node : Json) : List String :=
  match pyGet node "recipeIngredient" with
  | some (.arr xs) => (xs.map (fun x => pyStrip (pyStr x))).filter (fun t => !t.isEmpty)
  | _ => []

/-- The time candidate of a node (lines 170-172): `some` exactly when the
raw duration text is truthy, in which case the assigned value is
`iso8601_duration_to_text(t) or t`. -/
def timeCand (node : Json) : Option String :=
  match pyOrStr (ensure_str (pyGet node "totalTime")) (ensure_str (pyGet node "cookTime")) with
  | some t => if !t.isEmpty then pyOrStr (iso8601_duration_to_text t) (some t) else none
  | none => none

/-- The yield candidate of a node (lines 175-179). -/
def yieldCand (node : Json) : Option String :=
  match pyGet node "recipeYield" with
  | some (.arr (a :: _)) => ensure_str (some a)
  | y => ensure_str y

/-- The steps candidate of a node (lines 182-183). -/
def stepsCand (node : Json) : List String :=
  extract_steps_from_ld (pyGet node "recipeInstructions")

/-- The image candidate of a node (line 188). -/
def imageCand (node : Json) : Option String :=
  extract_image_url_from_ld (pyGet node "image")

/-- The per-node state update of `parse_ld_json` (lines 155-188): skip
non-Recipe nodes; for each field, update only when the field is falsy. -/
def updateNode (st : ParseResult) (node : Json) : ParseResult :=
  if !isRecipe node then st
  else
    let title := if optTruthy st.title then st.title else titleCand node
    let ingredients :=
      if !st.ingredients.isEmpty then st.ingredients
      else
        match pyGet node "recipeIngredient" with
        | some (.arr _) => ingredientsCand node
        | _ => st.ingredients
    let time_text :=
      if optTruthy st.time_text then st.time_text
      else
        match timeCand node with
        | some v => some v
        | none => st.time_text
    let yield_info := if optTruthy st.yield_info then st.yield_info else yieldCand node
    let steps :=
      if !st.steps.isEmpty then st.steps
      else if !(stepsCand node).isEmpty then stepsCand node else st.steps
    let image_url := if optTruthy st.image_url then st.image_url else imageCand node
    ⟨title, ingredients, time_text, yield_info, steps, image_url⟩

/-- `parse_ld_json` (lines 128-190) over the decode results of the blobs. -/
def parse_ld_json (blobs : List (Option Json)) : ParseResult :=
  (allNodes blobs).foldl updateNode initParse

/-- The Recipe nodes scanned by `parse_ld_json`, in blob order then node
order (the nodes not skipped at lines 156-159). -/
def recipeNodes (blobs : List (Option Json)) : List Json :=
  (allNodes blobs).filter (fun n => isRecipe n)

/-- The title / yield / image update pattern of `parse_ld_json`: when the
field is falsy the candidate is assigned unconditionally. -/
def stepAssignOpt (cand : Json → Option String) (t : Option String) (n : Json) : Option String :=
  if !isRecipe n then t
  else if optTruthy t then t
  else cand n

/-- The time update pattern (lines 169-172): assigned only when the raw
duration text is truthy. -/
def stepTime (t : Option String) (n : Json) : Option String :=
  if !isRecipe n then t
  else if optTruthy t then t
  else
    match timeCand n with
    | some v => some v
    | none => t

/-- The ingredients update pattern (lines 164-167): assigned only when the
field value is a list. -/
def stepIngredients (t : List String) (n : Json) : List String :=
  if !isRecipe n then t
  else if !t.isEmpty then t
  else
    match pyGet n "recipeIngredient" with
    | some (.arr _) => ingredientsCand n
    | _ => t

/-- The steps update pattern (lines 181-185): assigned only when the
extracted list is non-empty. -/
def stepSteps (t : List String) (n : Json) : List String :=
  if !isRecipe n then t
  else if !t.isEmpty then t
  else if !(stepsCand n).isEmpty then stepsCand n else t

/-- The markup query results used by the fallback cascade of
`scrape_keyword` (lines 230-257).  `none` models a raised exception from
the page driver (or a missing attribute, for the meta query). -/
structure Page where
  h1 : Option String
  og_image : Option String
  step_texts : Option (List String)
  ingredient_texts : Option (List String)

/-- The record assembled at lines 259-268. -/
structure Doc where
  title : String
  ingredients : List String
  steps : List String
  time : Option String
  yield_info : Option String
  link : String
  imageUrl : Option String
  source : String
deriving DecidableEq

/-- Record assembly for one visited page: structured extraction (line 227),
the fallback cascade (lines 230-257), and the record literal (lines 259-268). -/
def build_doc (blobs : List (Option Json)) (pg : Page) (url : String) : Doc :=
  let r := parse_ld_json blobs
  let title :=
    if optTruthy r.title then r.title
    else
      match pg.h1 with
      | some t => some (pyStrip t)
      | none => some "(未找到標題)"
  let image_url :=
    if optTruthy r.image_url then r.image_url
    else
      match pg.og_image with
      | some og =>
        if !og.isEmpty && ['h', 't', 't', 'p'].isPrefixOf og.data then some og
        else r.image_url
      | none => r.image_url
  let steps :=
    if !r.steps.isEmpty then r.steps
    else
      match pg.step_texts with
      | some ts =>
        let tmp := (ts.map pyStrip).filter (fun t => !t.isEmpty)
        if !tmp.isEmpty then tmp else r.steps
      | none => r.steps
  let ingredients :=
    if !r.ingredients.isEmpty then r.ingredients
    else
      match pg.ingredient_texts with
      | some ts =>
        let tmp := (ts.map pyStrip).filter (fun t => !t.isEmpty)
        if !tmp.isEmpty then tmp else r.ingredients
      | none => r.ingredients
  { title := pyOrStrD title ""
    ingredients := ingredients
    steps := steps
    time := r.time_text
    yield_info := r.yield_info
    link := url
    imageUrl := image_url
    source := "icook" }

/-- One successfully navigated page visit: the retained metadata blob
decode results, the fallback query results, and the page URL. -/
structure Visit where
  blobs : List (Option Json)
  pg : Page
  url : String

def buildOf (v : Visit) : Doc := build_doc v.blobs v.pg v.url

/-- The per-link loop of `scrape_keyword` (lines 209-283): `none` models a
navigation failure (skipped, line 217).  Returns the `saved` list and the
list of records for which a Firestore upsert was attempted (lines 270-279):
an upsert is attempted exactly when the store handle is configured and the
record's ingredients are non-empty, and a record is appended to `saved`
exactly when its ingredients are non-empty. -/
def visitStep (dbUp : Bool) (acc : List Doc × List Doc) (ov : Option Visit) :
    List Doc × List Doc :=
  match ov with
  | none => acc
  | some v =>
    let d := buildOf v
    if !d.ingredients.isEmpty then
      (acc.1 ++ [d], if dbUp then acc.2 ++ [d] else acc.2)
    else acc

def processVisits (dbUp : Bool) (vs : List (Option Visit)) : List Doc × List Doc :=
  vs.foldl (visitStep dbUp) ([], [])

/-- Python `str.replace(pat, rep)` on character lists: replace every
non-overlapping occurrence, scanning left to right.  The first argument
is recursion fuel; `replaceAll` supplies the input length, which is
enough because every step consumes at least one character. -/
def replaceAllCore (pat rep : List Char) : Nat → List Char → List Char
  | _, [] => []
  | 0, l => l
  | fuel + 1, c :: cs =>
    if !pat.isEmpty && pat.isPrefixOf (c :: cs) then
      rep ++ replaceAllCore pat rep fuel ((c :: cs).drop pat.length)
    else c :: replaceAllCore pat rep fuel cs

def replaceAll (pat rep : List Char) (l : List Char) : List Char :=
  replaceAllCore pat rep l.length l

/-- The Firestore document id of `upsert_firestore` (line 78): strip the
scheme prefixes then replace every path separator by an underscore. -/
def derive_id (link : String) : String :=
  ⟨replaceAll "/".data "_".data
    (replaceAll "http://".data []
      (replaceAll "https://".data [] link.data))⟩

/-- `re.fullmatch` against the recipe-detail path pattern (line 203):
a "/recipes/" prefix followed by one or more digits and nothing else. -/
def matchesRecipePath (s : String) : Bool :=
  "/recipes/".data.isPrefixOf s.data &&
    (let ds := s.data.drop 9
     !ds.isEmpty && ds.all Char.isDigit)

/-- `urljoin("https://icook.tw", href)` restricted to the root-relative
paths the pattern admits (every matched href starts with "/"). -/
def urljoin_icook (href : String) : String := "https://icook.tw" ++ href

/-- The `links` list built at lines 200-204 from the anchor hrefs
(`none` models `get_attribute` returning `None`). -/
def matchedLinks (hrefs : List (Option String)) : List String :=
  hrefs.filterMap (fun h =>
    match h with
    | some s => if !s.isEmpty && matchesRecipePath s then some (urljoin_icook s) else none
    | none => none)

/-- `list(dict.fromkeys(links))` (line 205): drop every element already
seen, keeping first occurrences in order. -/
def dedupFirstAux (seen : List String) : List String → List String
  | [] => []
  | x :: xs =>
    if x ∈ seen then dedupFirstAux seen xs
    else x :: dedupFirstAux (x :: seen) xs

/-- `LIMIT_PER_ING` (line 18). -/
def LIMIT_PER_ING : Nat := 20

/-- Lines 200-205: filter hrefs by the recipe-detail pattern, join with the
site root, deduplicate keeping first occurrences, cap at the limit. -/
def discover_links (hrefs : List (Option String)) : List String :=
  (dedupFirstAux [] (matchedLinks hrefs)).take LIMIT_PER_ING

/-- Modelled from the spec: "deduplicate discovered links preserving
first-seen order" — append each link the first time it is seen. -/
def specDedupFirstSeen (l : List String) : List String :=
  l.foldl (fun acc x => if x ∈ acc then acc else acc ++ [x]) []

/-- The two local persistence files: the snapshot file and the history
file.  `history = none` models an absent or unparseable history file. -/
structure FS where
  sample : List Doc
  history : Option (List Doc)

/-- The persistence phase of `main` (lines 318-338): overwrite the snapshot
file with the run's records; append the run's records to the parsed
history (empty when absent or unparseable) and rewrite the history file. -/
def persistPhase (fs : FS) (run : List Doc) : FS :=
  { sample := run
    history := some ((fs.history.getD []) ++ run) }

/-! Concrete inputs used by counterexamples and witnesses. -/

/-- A Recipe node whose duration components are both zero. -/
def cx3node : Json :=
  .obj [("@type", .str "Recipe"), ("name", .str "甲"), ("totalTime", .str "PT0H0M")]

/-- A Recipe node whose image is a whitespace-only string. -/
def cx4node1 : Json := .obj [("@type", .str "Recipe"), ("image", .str " ")]

/-- A later Recipe node with a well-formed image URL. -/
def cx4node2 : Json := .obj [("@type", .str "Recipe"), ("image", .str "http://b")]

/-- A single Recipe node carrying only a `totalTime` duration text. -/
def timeNode (s : String) : Json :=
  .obj [("@type", .str "Recipe"), ("totalTime", .str s)]

/-- A fully populated Recipe node. -/
def demoNode1 : Json :=
  .obj [("@type", .str "Recipe"), ("name", .str "紅燒肉"),
        ("recipeIngredient", .arr [.str "豬肉", .str "醬油"]),
        ("totalTime", .str "PT1H30M"), ("recipeYield", .arr [.str "4 人"]),
        ("recipeInstructions", .arr [.str "切塊", .str "燉煮"]),
        ("image", .str "https://img/1.jpg")]

/-- A second Recipe node with different values for every field. -/
def demoNode2 : Json :=
  .obj [("@type", .str "Recipe"), ("name", .str "滷蛋"),
        ("recipeIngredient", .arr [.str "雞蛋"]),
        ("totalTime", .str "PT20M"), ("recipeYield", .str "2 人"),
        ("recipeInstructions", .arr [.str "水煮"]),
        ("image", .str "https://img/2.jpg")]

def demoBlobs : List (Option Json) := [some demoNode1, some demoNode2]

/-- A page whose every fallback query fails. -/
def emptyPage : Page := ⟨none, none, none, none⟩

/-- A visit whose metadata yields a record with non-empty ingredients. -/
def demoVisit : Visit := ⟨demoBlobs, emptyPage, "https://icook.tw/recipes/1"⟩

/-! Theorems. -/

/-- C6: after any run the snapshot file contains exactly the sequence of
records produced in that run and nothing from prior runs: the fixed
snapshot file is fully overwritten with the current run's list, whatever
the previous file-system state was. -/
theorem C6_snapshot_overwrite (fs : FS) (run : List Doc) :
    (persistPhase fs run).sample = run := rfl

/-- C5: the history file after a run equals the previously stored history
(empty when the file was absent or unparseable) with the run's records
appended in order, and running twice makes the history length equal its
length before run 1 plus both run counts — no deduplication by link is
performed, whatever the records are. -/
theorem C5_history_append (fs : FS) (r1 r2 : List Doc) :
    (persistPhase fs r1).history = some ((fs.history.getD []) ++ r1) ∧
    (persistPhase (persistPhase fs r1) r2).history
      = some ((fs.history.getD []) ++ r1 ++ r2) ∧
    ((persistPhase (persistPhase fs r1) r2).history.getD []).length
      = (fs.history.getD []).length + r1.length + r2.length := by
  refine ⟨rfl, by simp [persistPhase], ?_⟩
  simp [persistPhase]
  omega

/-- C9: a blob that fails to decode is skipped silently: extracting any
blob sequence with an undecodable blob inserted anywhere gives exactly the
extraction of the sequence with that blob removed. -/
theorem C9_undecodable_blob_skipped (xs ys : List (Option Json)) :
    parse_ld_json (xs ++ none :: ys) = parse_ld_json (xs ++ ys) := by
  simp [parse_ld_json, allNodes, List.flatMap_append, List.flatMap_cons]

/-- C3 counterexample: for the duration text "PT0H0M" (both components
zero) the conversion helper yields no value, but the extracted time field
of `parse_ld_json` is set to the raw text "PT0H0M" rather than remaining
unset, contradicting the claim. -/
theorem C3_counterexample :
    iso8601_duration_to_text "PT0H0M" = none ∧
    (parse_ld_json [some cx3node]).time_text = some "PT0H0M" := by decide

/-- C4 counterexample: an image URL in the direct-string shape is not
trimmed, and a whitespace-only image string counts as found — it is kept
verbatim and blocks the well-formed URL of a later node, contradicting
the claim. -/
theorem C4_counterexample :
    (parse_ld_json [some cx4node1, some cx4node2]).image_url = some " " ∧
    pyStrip " " = "" := by decide

theorem replaceAllCore_congr (pat rep : List Char) :
    ∀ (f1 : Nat), ∀ (f2 : Nat) (l : List Char), l.length ≤ f1 → l.length ≤ f2 →
      replaceAllCore pat rep f1 l = replaceAllCore pat rep f2 l := by
  intro f1
  induction f1 with
  | zero =>
    intro f2 l h1 h2
    have hl : l = [] := by
      cases l with
      | nil => rfl
      | cons c cs => simp at h1
    subst hl
    cases f2 <;> rfl
  | succ f1 ih =>
    intro f2 l h1 h2
    cases l with
    | nil => cases f2 <;> rfl
    | cons c cs =>
      cases f2 with
      | zero => simp at h2
      | succ f2 =>
        show (if !pat.isEmpty && pat.isPrefixOf (c :: cs) then
                rep ++ replaceAllCore pat rep f1 ((c :: cs).drop pat.length)
              else c :: replaceAllCore pat rep f1 cs)
            = (if !pat.isEmpty && pat.isPrefixOf (c :: cs) then
                rep ++ replaceAllCore pat rep f2 ((c :: cs).drop pat.length)
              else c :: replaceAllCore pat rep f2 cs)
        by_cases hg : (!pat.isEmpty && pat.isPrefixOf (c :: cs)) = true
        · have hp : pat ≠ [] := by
            have := ((Bool.and_eq_true _ _).mp hg).1
            simpa using this
          have hlen : 1 ≤ pat.length := List.length_pos.mpr hp
          have hd : ((c :: cs).drop pat.length).length ≤ f1 := by
            simp only [List.length_drop, List.length_cons]
            simp only [List.length_cons] at h1
            omega
          have hd2 : ((c :: cs).drop pat.length).length ≤ f2 := by
            simp only [List.length_drop, List.length_cons]
            simp only [List.length_cons] at h2
            omega
          rw [if_pos hg, if_pos hg, ih f2 _ hd hd2]
        · have hc : cs.length ≤ f1 := by
            simp only [List.length_cons] at h1; omega
          have hc2 : cs.length ≤ f2 := by
            simp only [List.length_cons] at h2; omega
          rw [if_neg hg, if_neg hg, ih f2 _ hc hc2]

theorem replaceAll_cons_match (pat rep : List Char) (c : Char) (cs : List Char)
    (hg : (!pat.isEmpty && pat.isPrefixOf (c :: cs)) = true) :
    replaceAll pat rep (c :: cs)
      = rep ++ replaceAll pat rep ((c :: cs).drop pat.length) := by
  have hp : pat ≠ [] := by
    have := ((Bool.and_eq_true _ _).mp hg).1
    simpa using this
  have hlen : 1 ≤ pat.length := List.length_pos.mpr hp
  show replaceAllCore pat rep (cs.length + 1) (c :: cs) = _
  rw [show replaceAllCore pat rep (cs.length + 1) (c :: cs)
      = (if !pat.isEmpty && pat.isPrefixOf (c :: cs) then
          rep ++ replaceAllCore pat rep cs.length ((c :: cs).drop pat.length)
        else c :: replaceAllCore pat rep cs.length cs) from rfl]
  rw [if_pos hg]
  rw [replaceAllCore_congr pat rep cs.length ((c :: cs).drop pat.length).length _
        (by simp only [List.length_drop, List.length_cons]; omega) (le_refl _)]
  rfl

theorem replaceAll_cons_nomatch (pat rep : List Char) (c : Char) (cs : List Char)
    (hg : (!pat.isEmpty && pat.isPrefixOf (c :: cs)) = false) :
    replaceAll pat rep (c :: cs) = c :: replaceAll pat rep cs := by
  show replaceAllCore pat rep (cs.length + 1) (c :: cs) = _
  rw [show replaceAllCore pat rep (cs.length + 1) (c :: cs)
      = (if !pat.isEmpty && pat.isPrefixOf (c :: cs) then
          rep ++ replaceAllCore pat rep cs.length ((c :: cs).drop pat.length)
        else c :: replaceAllCore pat rep cs.length cs) from rfl]
  rw [if_neg (by simp [hg])]
  rfl

theorem replaceAll_pat_head (pat rep : List Char) (hp : pat ≠ []) (l : List Char) :
    replaceAll pat rep (pat ++ l) = rep ++ replaceAll pat rep l := by
  cases pat with
  | nil => exact absurd rfl hp
  | cons p ps =>
    have hg : (!(p :: ps).isEmpty && (p :: ps).isPrefixOf (p :: (ps ++ l))) = true := by
      have hpre : (p :: ps).isPrefixOf ((p :: ps) ++ l) = true :=
        List.isPrefixOf_iff_prefix.mpr (List.prefix_append _ _)
      simp only [List.isEmpty_cons, Bool.not_false, Bool.true_and]
      exact hpre
    have := replaceAll_cons_match (p :: ps) rep p (ps ++ l) hg
    rw [show p :: (ps ++ l) = (p :: ps) ++ l from rfl] at this
    rw [this, List.drop_left]

theorem replaceAll_append_nomatch (pat rep : List Char) :
    ∀ (u l : List Char),
      (∀ w, w <:+ u → w ≠ [] → pat.isPrefixOf (w ++ l) = false) →
      replaceAll pat rep (u ++ l) = u ++ replaceAll pat rep l := by
  intro u
  induction u with
  | nil => intro l h; rfl
  | cons c u' ih =>
    intro l h
    have hpre : pat.isPrefixOf (c :: (u' ++ l)) = false := by
      have h2 := h (c :: u') (List.suffix_refl _) (by simp)
      simpa using h2
    have hg : (!pat.isEmpty && pat.isPrefixOf (c :: (u' ++ l))) = false := by
      simp [hpre]
    show replaceAll pat rep (c :: (u' ++ l)) = c :: (u' ++ replaceAll pat rep l)
    rw [replaceAll_cons_nomatch pat rep c (u' ++ l) hg,
        ih l (fun w hw hne => h w (hw.trans (List.suffix_cons c u')) hne)]

theorem https_nomatch_http (r : List Char) :
    ∀ w, w <:+ "http://".data → w ≠ [] →
      "https://".data.isPrefixOf (w ++ r) = false := by
  intro w hw hne
  have hmem : w ∈ List.tails "http://".data := (List.mem_tails _ _).mpr hw
  have htails : List.tails "http://".data =
      ["http://".data, "ttp://".data, "tp://".data, "p://".data,
       "://".data, "//".data, "/".data, []] := by decide
  rw [htails] at hmem
  simp only [List.mem_cons] at hmem
  rcases hmem with h | h | h | h | h | h | h | h
  · subst h
    show (['h','t','t','p','s',':','/','/'].isPrefixOf (['h','t','t','p',':','/','/'] ++ r)) = false
    simp +decide [List.isPrefixOf]
  · subst h
    show (['h','t','t','p','s',':','/','/'].isPrefixOf (['t','t','p',':','/','/'] ++ r)) = false
    simp +decide [List.isPrefixOf]
  · subst h
    show (['h','t','t','p','s',':','/','/'].isPrefixOf (['t','p',':','/','/'] ++ r)) = false
    simp +decide [List.isPrefixOf]
  · subst h
    show (['h','t','t','p','s',':','/','/'].isPrefixOf (['p',':','/','/'] ++ r)) = false
    simp +decide [List.isPrefixOf]
  · subst h
    show (['h','t','t','p','s',':','/','/'].isPrefixOf ([':','/','/'] ++ r)) = false
    simp +decide [List.isPrefixOf]
  · subst h
    show (['h','t','t','p','s',':','/','/'].isPrefixOf (['/','/'] ++ r)) = false
    simp +decide [List.isPrefixOf]
  · subst h
    show (['h','t','t','p','s',':','/','/'].isPrefixOf (['/'] ++ r)) = false
    simp +decide [List.isPrefixOf]
  · rcases h with h | h
    · exact absurd h hne
    · exact absurd h (List.not_mem_nil w)

/-- C7: the Firestore document id is a deterministic function of the
link, and two links that differ only in their scheme prefix (https vs
http) derive the same id: both scheme spellings are stripped before path
separators are replaced. -/
theorem C7_doc_id_scheme_insensitive :
    (∀ a b : String, a = b → derive_id a = derive_id b) ∧
    (∀ rest : String, derive_id ("https://" ++ rest) = derive_id ("http://" ++ rest)) := by
  constructor
  · intro a b h; rw [h]
  · intro rest
    show (⟨replaceAll "/".data "_".data
            (replaceAll "http://".data []
              (replaceAll "https://".data [] ("https://" ++ rest).data))⟩ : String)
        = ⟨replaceAll "/".data "_".data
            (replaceAll "http://".data []
              (replaceAll "https://".data [] ("http://" ++ rest).data))⟩
    rw [String.data_append, String.data_append]
    rw [replaceAll_pat_head "https://".data [] (by decide) rest.data]
    rw [replaceAll_append_nomatch "https://".data [] "http://".data rest.data
          (https_nomatch_http rest.data)]
    rw [List.nil_append]
    rw [replaceAll_pat_head "http://".data [] (by decide)
          (replaceAll "https://".data [] rest.data)]
    rw [List.nil_append]

theorem dedupFirstAux_seen_congr :
    ∀ (l : List String) (s1 s2 : List String), (∀ y, y ∈ s1 ↔ y ∈ s2) →
      dedupFirstAux s1 l = dedupFirstAux s2 l := by
  intro l
  induction l with
  | nil => intro s1 s2 h; rfl
  | cons x xs ih =>
    intro s1 s2 h
    by_cases hx : x ∈ s1
    · rw [dedupFirstAux, dedupFirstAux, if_pos hx, if_pos ((h x).mp hx)]
      exact ih s1 s2 h
    · rw [dedupFirstAux, dedupFirstAux, if_neg hx, if_neg (fun hc => hx ((h x).mpr hc))]
      refine congrArg (x :: ·) (ih _ _ ?_)
      intro y
      simp only [List.mem_cons]
      exact or_congr Iff.rfl (h y)

theorem foldl_dedupFirstSeen :
    ∀ (l : List String) (acc : List String),
      l.foldl (fun acc x => if x ∈ acc then acc else acc ++ [x]) acc
        = acc ++ dedupFirstAux acc l := by
  intro l
  induction l with
  | nil => intro acc; simp [dedupFirstAux]
  | cons x xs ih =>
    intro acc
    by_cases hx : x ∈ acc
    · rw [List.foldl_cons, if_pos hx, dedupFirstAux, if_pos hx]
      exact ih acc
    · rw [List.foldl_cons, if_neg hx, dedupFirstAux, if_neg hx, ih (acc ++ [x])]
      rw [dedupFirstAux_seen_congr xs (acc ++ [x]) (x :: acc) (by intro y; simp; tauto)]
      simp

theorem specDedup_eq_dedupFirstAux (l : List String) :
    specDedupFirstSeen l = dedupFirstAux [] l := by
  have := foldl_dedupFirstSeen l []
  simpa [specDedupFirstSeen] using this

theorem dedupFirstAux_sublist :
    ∀ (l : List String) (seen : List String), List.Sublist (dedupFirstAux seen l) l := by
  intro l
  induction l with
  | nil => intro seen; exact List.Sublist.refl _
  | cons x xs ih =>
    intro seen
    by_cases hx : x ∈ seen
    · rw [dedupFirstAux, if_pos hx]
      exact (ih seen).cons x
    · rw [dedupFirstAux, if_neg hx]
      exact (ih (x :: seen)).cons₂ x

theorem mem_dedupFirstAux :
    ∀ (l : List String) (seen : List String) (x : String),
      x ∈ dedupFirstAux seen l ↔ (x ∈ l ∧ x ∉ seen) := by
  intro l
  induction l with
  | nil => intro seen x; simp [dedupFirstAux]
  | cons y xs ih =>
    intro seen x
    by_cases hy : y ∈ seen
    · rw [dedupFirstAux, if_pos hy, ih seen x]
      simp only [List.mem_cons]
      constructor
      · rintro ⟨h1, h2⟩; exact ⟨Or.inr h1, h2⟩
      · rintro ⟨h1 | h1, h2⟩
        · subst h1; exact absurd hy h2
        · exact ⟨h1, h2⟩
    · rw [dedupFirstAux, if_neg hy]
      rw [List.mem_cons, ih (y :: seen) x]
      simp only [List.mem_cons]
      constructor
      · rintro (h | ⟨h1, h2⟩)
        · subst h; exact ⟨Or.inl rfl, hy⟩
        · exact ⟨Or.inr h1, fun hc => h2 (Or.inr hc)⟩
      · rintro ⟨h1 | h1, h2⟩
        · exact Or.inl h1
        · by_cases hxy : x = y
          · exact Or.inl hxy
          · exact Or.inr ⟨h1, fun hc => hc.elim hxy h2⟩

theorem dedupFirstAux_nodup :
    ∀ (l : List String) (seen : List String), (dedupFirstAux seen l).Nodup := by
  intro l
  induction l with
  | nil => intro seen; simp [dedupFirstAux]
  | cons y xs ih =>
    intro seen
    by_cases hy : y ∈ seen
    · rw [dedupFirstAux, if_pos hy]; exact ih seen
    · rw [dedupFirstAux, if_neg hy]
      refine List.nodup_cons.mpr ⟨?_, ih (y :: seen)⟩
      intro hc
      exact ((mem_dedupFirstAux xs (y :: seen) y).mp hc).2 (List.mem_cons_self _ _)

/-- C8: the visited links of a keyword are the anchors matching the
recipe-detail pattern, deduplicated preserving first-seen order (this is
exactly the spec-level first-seen fold) and capped at the fixed
per-keyword limit of 20: the visited list is a prefix, of length at most
20, of the first-occurrence subsequence of the matched links. -/
theorem C8_links_dedup_cap (hrefs : List (Option String)) :
    discover_links hrefs = (specDedupFirstSeen (matchedLinks hrefs)).take LIMIT_PER_ING ∧
    (discover_links hrefs).length ≤ 20 ∧
    discover_links hrefs <+: specDedupFirstSeen (matchedLinks hrefs) ∧
    (specDedupFirstSeen (matchedLinks hrefs)).Nodup ∧
    List.Sublist (specDedupFirstSeen (matchedLinks hrefs)) (matchedLinks hrefs) ∧
    ∀ x, x ∈ specDedupFirstSeen (matchedLinks hrefs) ↔ x ∈ matchedLinks hrefs := by
  have he := specDedup_eq_dedupFirstAux (matchedLinks hrefs)
  refine ⟨by rw [discover_links, he], ?_, ?_, ?_, ?_, ?_⟩
  · rw [discover_links]
    simp only [List.length_take, LIMIT_PER_ING]
    omega
  · rw [discover_links, he]
    exact List.take_prefix _ _
  · rw [he]
    exact dedupFirstAux_nodup _ _
  · rw [he]
    exact dedupFirstAux_sublist _ _
  · intro x
    rw [he, mem_dedupFirstAux]
    simp

/-- C7 witness: the scheme-insensitivity theorem applied at a concrete
link, together with the concrete derived id. -/
theorem C7_witness :
    derive_id "https://icook.tw/recipes/123" = derive_id "http://icook.tw/recipes/123" ∧
    derive_id "https://icook.tw/recipes/123" = "icook.tw_recipes_123" := by
  constructor
  · have h1 := C7_doc_id_scheme_insensitive.1 "https://icook.tw/recipes/123"
      "https://icook.tw/recipes/123" rfl
    have h2 := C7_doc_id_scheme_insensitive.2 "icook.tw/recipes/123"
    exact h1.trans h2
  · decide

theorem stepAssignOpt_keep (cand : Json → Option String) (t : Option String) (n : Json)
    (ht : optTruthy t = true) : stepAssignOpt cand t n = t := by
  cases hr : isRecipe n <;> simp [stepAssignOpt, hr, ht]

theorem stepAssignOpt_assign (cand : Json → Option String) (t : Option String) (n : Json)
    (ht : optTruthy t = false) (hr : isRecipe n = true)
    (hc : optTruthy (cand n) = true) :
    stepAssignOpt cand t n = cand n := by
  simp [stepAssignOpt, hr, ht]

theorem stepAssignOpt_falsy (cand : Json → Option String) (t : Option String) (n : Json)
    (ht : optTruthy t = false) (h : isRecipe n = false ∨ optTruthy (cand n) = false) :
    optTruthy (stepAssignOpt cand t n) = false := by
  cases hr : isRecipe n
  · simp [stepAssignOpt, hr, ht]
  · rcases h with h | h
    · rw [hr] at h; cases h
    · simp [stepAssignOpt, hr, ht, h]

theorem stepTime_keep (t : Option String) (n : Json) (ht : optTruthy t = true) :
    stepTime t n = t := by
  cases hr : isRecipe n <;> simp [stepTime, hr, ht]

theorem stepTime_assign (t : Option String) (n : Json)
    (ht : optTruthy t = false) (hr : isRecipe n = true)
    (hc : optTruthy (timeCand n) = true) : stepTime t n = timeCand n := by
  cases hm : timeCand n with
  | none => rw [hm] at hc; cases hc
  | some v => simp [stepTime, hr, ht, hm]

theorem stepTime_falsy (t : Option String) (n : Json)
    (ht : optTruthy t = false) (h : isRecipe n = false ∨ optTruthy (timeCand n) = false) :
    optTruthy (stepTime t n) = false := by
  cases hr : isRecipe n
  · simp [stepTime, hr, ht]
  · rcases h with h | h
    · rw [hr] at h; cases h
    · cases hm : timeCand n with
      | none => simp [stepTime, hr, ht, hm]
      | some v => rw [hm] at h; simp [stepTime, hr, ht, hm, h]

theorem stepIngredients_keep (t : List String) (n : Json) (ht : (!t.isEmpty) = true) :
    stepIngredients t n = t := by
  cases hr : isRecipe n <;> simp [stepIngredients, hr, ht]

theorem stepIngredients_assign (t : List String) (n : Json)
    (ht : (!t.isEmpty) = false) (hr : isRecipe n = true)
    (hc : (!(ingredientsCand n).isEmpty) = true) :
    stepIngredients t n = ingredientsCand n := by
  rw [stepIngredients]
  rw [hr]
  simp only [Bool.not_true, Bool.false_eq_true, if_false, ht, if_false]
  split
  · rfl
  · rename_i heq
    exfalso
    rw [ingredientsCand] at hc
    revert hc
    split
    · rename_i heq2
      rw [heq2] at heq
      exact absurd rfl (heq _)
    · intro hc
      simp at hc

theorem stepIngredients_falsy (t : List String) (n : Json)
    (ht : (!t.isEmpty) = false)
    (h : isRecipe n = false ∨ (!(ingredientsCand n).isEmpty) = false) :
    (!(stepIngredients t n).isEmpty) = false := by
  cases hr : isRecipe n
  · simp [stepIngredients, hr, ht]
  · rcases h with h | h
    · rw [hr] at h; cases h
    · rw [stepIngredients, hr]
      simp only [Bool.not_true, Bool.false_eq_true, if_false, ht, if_false]
      split
      · exact h
      · exact ht

theorem stepSteps_keep (t : List String) (n : Json) (ht : (!t.isEmpty) = true) :
    stepSteps t n = t := by
  cases hr : isRecipe n <;> simp [stepSteps, hr, ht]

theorem stepSteps_assign (t : List String) (n : Json)
    (ht : (!t.isEmpty) = false) (hr : isRecipe n = true)
    (hc : (!(stepsCand n).isEmpty) = true) :
    stepSteps t n = stepsCand n := by
  simp [stepSteps, hr, ht, hc]

theorem stepSteps_falsy (t : List String) (n : Json)
    (ht : (!t.isEmpty) = false)
    (h : isRecipe n = false ∨ (!(stepsCand n).isEmpty) = false) :
    (!(stepSteps t n).isEmpty) = false := by
  cases hr : isRecipe n
  · simp [stepSteps, hr, ht]
  · rcases h with h | h
    · rw [hr] at h; cases h
    · simp [stepSteps, hr, ht, h]

theorem firstWins_aux {α : Type} (tr : α → Bool) (step : α → Json → α)
    (h1 : ∀ t n, tr t = true → step t n = t) :
    ∀ (ns : List Json) (t : α), tr t = true → ns.foldl step t = t := by
  intro ns
  induction ns with
  | nil => intro t ht; rfl
  | cons n ns ih =>
    intro t ht
    rw [List.foldl_cons, h1 t n ht]
    exact ih t ht

theorem firstWins_foldl {α : Type} (tr : α → Bool) (cand : Json → α) (step : α → Json → α)
    (h1 : ∀ t n, tr t = true → step t n = t)
    (h2 : ∀ t n, tr t = false → isRecipe n = true → tr (cand n) = true → step t n = cand n)
    (h3 : ∀ t n, tr t = false → isRecipe n = false ∨ tr (cand n) = false →
      tr (step t n) = false) :
    ∀ (ns : List Json) (t0 : α) (c : α), tr t0 = false →
      ((ns.filter (fun n => isRecipe n)).map cand).find? tr = some c →
      ns.foldl step t0 = c := by
  intro ns
  induction ns with
  | nil =>
    intro t0 c ht hf
    simp at hf
  | cons n ns ih =>
    intro t0 c ht hf
    rw [List.foldl_cons]
    cases hr : isRecipe n with
    | false =>
      rw [List.filter_cons_of_neg (by simp [hr])] at hf
      exact ih (step t0 n) c (h3 t0 n ht (Or.inl hr)) hf
    | true =>
      rw [List.filter_cons_of_pos (by simp [hr]), List.map_cons] at hf
      cases hc : tr (cand n) with
      | true =>
        rw [List.find?_cons_of_pos _ hc] at hf
        have hcc : cand n = c := Option.some.inj hf
        rw [h2 t0 n ht hr hc, hcc]
        exact firstWins_aux tr step h1 ns c (hcc ▸ hc)
      | false =>
        rw [List.find?_cons_of_neg _ (by simp [hc])] at hf
        exact ih (step t0 n) c (h3 t0 n ht (Or.inr hc)) hf

theorem updateNode_title (st : ParseResult) (n : Json) :
    (updateNode st n).title = stepAssignOpt titleCand st.title n := by
  cases hr : isRecipe n <;> simp [updateNode, stepAssignOpt, hr]

theorem updateNode_ingredients (st : ParseResult) (n : Json) :
    (updateNode st n).ingredients = stepIngredients st.ingredients n := by
  cases hr : isRecipe n <;> simp [updateNode, stepIngredients, hr]

theorem updateNode_time (st : ParseResult) (n : Json) :
    (updateNode st n).time_text = stepTime st.time_text n := by
  cases hr : isRecipe n <;> simp [updateNode, stepTime, hr]

theorem updateNode_yield (st : ParseResult) (n : Json) :
    (updateNode st n).yield_info = stepAssignOpt yieldCand st.yield_info n := by
  cases hr : isRecipe n <;> simp [updateNode, stepAssignOpt, hr]

theorem updateNode_steps (st : ParseResult) (n : Json) :
    (updateNode st n).steps = stepSteps st.steps n := by
  cases hr : isRecipe n <;> simp [updateNode, stepSteps, hr]

theorem updateNode_image (st : ParseResult) (n : Json) :
    (updateNode st n).image_url = stepAssignOpt imageCand st.image_url n := by
  cases hr : isRecipe n <;> simp [updateNode, stepAssignOpt, hr]

theorem foldl_updateNode_title :
    ∀ (ns : List Json) (st : ParseResult),
      (ns.foldl updateNode st).title = ns.foldl (stepAssignOpt titleCand) st.title := by
  intro ns
  induction ns with
  | nil => intro st; rfl
  | cons n ns ih =>
    intro st
    rw [List.foldl_cons, List.foldl_cons, ih, updateNode_title]

theorem foldl_updateNode_ingredients :
    ∀ (ns : List Json) (st : ParseResult),
      (ns.foldl updateNode st).ingredients = ns.foldl stepIngredients st.ingredients := by
  intro ns
  induction ns with
  | nil => intro st; rfl
  | cons n ns ih =>
    intro st
    rw [List.foldl_cons, List.foldl_cons, ih, updateNode_ingredients]

theorem foldl_updateNode_time :
    ∀ (ns : List Json) (st : ParseResult),
      (ns.foldl updateNode st).time_text = ns.foldl stepTime st.time_text := by
  intro ns
  induction ns with
  | nil => intro st; rfl
  | cons n ns ih =>
    intro st
    rw [List.foldl_cons, List.foldl_cons, ih, updateNode_time]

theorem foldl_updateNode_yield :
    ∀ (ns : List Json) (st : ParseResult),
      (ns.foldl updateNode st).yield_info = ns.foldl (stepAssignOpt yieldCand) st.yield_info := by
  intro ns
  induction ns with
  | nil => intro st; rfl
  | cons n ns ih =>
    intro st
    rw [List.foldl_cons, List.foldl_cons, ih, updateNode_yield]

theorem foldl_updateNode_steps :
    ∀ (ns : List Json) (st : ParseResult),
      (ns.foldl updateNode st).steps = ns.foldl stepSteps st.steps := by
  intro ns
  induction ns with
  | nil => intro st; rfl
  | cons n ns ih =>
    intro st
    rw [List.foldl_cons, List.foldl_cons, ih, updateNode_steps]

theorem foldl_updateNode_image :
    ∀ (ns : List Json) (st : ParseResult),
      (ns.foldl updateNode st).image_url = ns.foldl (stepAssignOpt imageCand) st.image_url := by
  intro ns
  induction ns with
  | nil => intro st; rfl
  | cons n ns ih =>
    intro st
    rw [List.foldl_cons, List.foldl_cons, ih, updateNode_image]

/-- C2: each output field of the extractor is filled independently by
scanning the Recipe nodes in blob order then node order and keeping the
first non-empty candidate for that field: whenever the scan of a field's
own candidate sequence finds a first non-empty value, the extractor
returns exactly that value for the field — later nodes never overwrite
it, and no other field influences the scan. -/
theorem C2_first_wins_per_field (blobs : List (Option Json)) :
    (∀ c, ((recipeNodes blobs).map titleCand).find? optTruthy = some c →
      (parse_ld_json blobs).title = c) ∧
    (∀ c, ((recipeNodes blobs).map ingredientsCand).find? (fun l => !l.isEmpty) = some c →
      (parse_ld_json blobs).ingredients = c) ∧
    (∀ c, ((recipeNodes blobs).map timeCand).find? optTruthy = some c →
      (parse_ld_json blobs).time_text = c) ∧
    (∀ c, ((recipeNodes blobs).map yieldCand).find? optTruthy = some c →
      (parse_ld_json blobs).yield_info = c) ∧
    (∀ c, ((recipeNodes blobs).map stepsCand).find? (fun l => !l.isEmpty) = some c →
      (parse_ld_json blobs).steps = c) ∧
    (∀ c, ((recipeNodes blobs).map imageCand).find? optTruthy = some c →
      (parse_ld_json blobs).image_url = c) := by
  refine ⟨?_, ?_, ?_, ?_, ?_, ?_⟩
  · intro c hf
    unfold recipeNodes at hf
    rw [parse_ld_json, foldl_updateNode_title]
    exact firstWins_foldl optTruthy titleCand (stepAssignOpt titleCand)
      (stepAssignOpt_keep titleCand) (stepAssignOpt_assign titleCand)
      (stepAssignOpt_falsy titleCand) (allNodes blobs) none c rfl hf
  · intro c hf
    unfold recipeNodes at hf
    rw [parse_ld_json, foldl_updateNode_ingredients]
    exact firstWins_foldl (fun l : List String => !l.isEmpty) ingredientsCand stepIngredients
      stepIngredients_keep stepIngredients_assign stepIngredients_falsy
      (allNodes blobs) [] c (by decide) hf
  · intro c hf
    unfold recipeNodes at hf
    rw [parse_ld_json, foldl_updateNode_time]
    exact firstWins_foldl optTruthy timeCand stepTime
      stepTime_keep stepTime_assign stepTime_falsy (allNodes blobs) none c rfl hf
  · intro c hf
    unfold recipeNodes at hf
    rw [parse_ld_json, foldl_updateNode_yield]
    exact firstWins_foldl optTruthy yieldCand (stepAssignOpt yieldCand)
      (stepAssignOpt_keep yieldCand) (stepAssignOpt_assign yieldCand)
      (stepAssignOpt_falsy yieldCand) (allNodes blobs) none c rfl hf
  · intro c hf
    unfold recipeNodes at hf
    rw [parse_ld_json, foldl_updateNode_steps]
    exact firstWins_foldl (fun l : List String => !l.isEmpty) stepsCand stepSteps
      stepSteps_keep stepSteps_assign stepSteps_falsy (allNodes blobs) [] c (by decide) hf
  · intro c hf
    unfold recipeNodes at hf
    rw [parse_ld_json, foldl_updateNode_image]
    exact firstWins_foldl optTruthy imageCand (stepAssignOpt imageCand)
      (stepAssignOpt_keep imageCand) (stepAssignOpt_assign imageCand)
      (stepAssignOpt_falsy imageCand) (allNodes blobs) none c rfl hf

/-- C2 witness: the first-wins theorem applied to two fully populated
Recipe nodes — every field takes its value from the first node. -/
theorem C2_witness :
    (parse_ld_json demoBlobs).title = some "紅燒肉" ∧
    (parse_ld_json demoBlobs).ingredients = ["豬肉", "醬油"] ∧
    (parse_ld_json demoBlobs).time_text = some "1 小時 30 分鐘" ∧
    (parse_ld_json demoBlobs).yield_info = some "4 人" ∧
    (parse_ld_json demoBlobs).steps = ["切塊", "燉煮"] ∧
    (parse_ld_json demoBlobs).image_url = some "https://img/1.jpg" := by
  have h := C2_first_wins_per_field demoBlobs
  exact ⟨h.1 _ (by decide), h.2.1 _ (by decide), h.2.2.1 _ (by decide),
    h.2.2.2.1 _ (by decide), h.2.2.2.2.1 _ (by decide), h.2.2.2.2.2 _ (by decide)⟩

theorem mem_objNodes (o n : Json) (h : n ∈ objNodes o) : isDict n = true := by
  cases o with
  | obj fs =>
    rw [objNodes] at h
    revert h
    split
    · intro h
      exact (List.mem_filter.mp h).2
    · intro h
      rcases List.mem_singleton.mp h with rfl
      rfl
  | arr xs =>
    rw [objNodes] at h
    exact (List.mem_filter.mp h).2
  | null => simp [objNodes] at h
  | bool b => simp [objNodes] at h
  | num m => simp [objNodes] at h
  | str s => simp [objNodes] at h

theorem mem_allNodes_isDict (blobs : List (Option Json)) (n : Json)
    (h : n ∈ allNodes blobs) : isDict n = true := by
  rw [allNodes] at h
  rcases List.mem_flatMap.mp h with ⟨b, hb, hn⟩
  cases b with
  | none => cases hn
  | some d =>
    have hn2 : n ∈ ldNodes d := hn
    rw [ldNodes.eq_def] at hn2
    rcases List.mem_flatMap.mp hn2 with ⟨o, ho, hno⟩
    exact mem_objNodes o n hno

theorem updateNode_not_recipe (st : ParseResult) (n : Json) (h : isRecipe n = false) :
    updateNode st n = st := by
  simp [updateNode, h]

theorem foldl_updateNode_no_recipe :
    ∀ (ns : List Json) (st : ParseResult), (∀ n, n ∈ ns → isRecipe n = false) →
      ns.foldl updateNode st = st := by
  intro ns
  induction ns with
  | nil => intro st h; rfl
  | cons n ns ih =>
    intro st h
    rw [List.foldl_cons, updateNode_not_recipe st n (h n (List.mem_cons_self _ _))]
    exact ih st (fun m hm => h m (List.mem_cons_of_mem _ hm))

/-- C10: the structured extractor is total over arbitrary decoded JSON
shapes: every candidate node is an object, non-Recipe nodes contribute
nothing, a scan with no Recipe node (and the empty blob list) yields the
default field set, and the polymorphic helpers return the empty default
on every unrecognized shape instead of failing. -/
theorem C10_extractor_total_defaults (blobs : List (Option Json)) :
    (∀ n, n ∈ allNodes blobs → isDict n = true) ∧
    (∀ st n, isRecipe n = false → updateNode st n = st) ∧
    ((∀ n, n ∈ allNodes blobs → isRecipe n = false) → parse_ld_json blobs = initParse) ∧
    parse_ld_json [] = initParse ∧
    (∀ i : Int, extract_image_url_from_ld (some (.num i)) = none) ∧
    (∀ b : Bool, extract_image_url_from_ld (some (.bool b)) = none) ∧
    extract_image_url_from_ld (some .null) = none ∧
    (∀ s : String, extract_steps_from_ld (some (.str s)) = []) ∧
    (∀ i : Int, extract_steps_from_ld (some (.num i)) = []) ∧
    extract_steps_from_ld none = [] := by
  refine ⟨mem_allNodes_isDict blobs, updateNode_not_recipe, ?_, rfl, ?_, ?_, rfl, ?_, ?_, rfl⟩
  · intro h
    exact foldl_updateNode_no_recipe (allNodes blobs) initParse h
  · intro i
    by_cases hi : jsonTruthy (.num i) = true
    · simp [extract_image_url_from_ld, hi]
    · simp [extract_image_url_from_ld, Bool.eq_false_iff.mpr hi]
  · intro b
    cases b <;> simp [extract_image_url_from_ld, jsonTruthy]
  · intro s; rfl
  · intro i; rfl

/-- C10 witness: the totality theorem applied at concrete inputs — a
graph node is an object, a non-Recipe node leaves the state unchanged,
and a blob list with no Recipe node extracts the default field set. -/
theorem C10_witness :
    isDict (Json.obj [("@type", Json.str "Recipe")]) = true ∧
    updateNode initParse (Json.str "x") = initParse ∧
    parse_ld_json [some (Json.obj [("a", Json.str "b")])] = initParse := by
  refine ⟨?_, ?_, ?_⟩
  · have h : allNodes [some (Json.obj [("@type", Json.str "Recipe")])]
        = [Json.obj [("@type", Json.str "Recipe")]] := rfl
    exact (C10_extractor_total_defaults [some (Json.obj [("@type", Json.str "Recipe")])]).1
      _ (h ▸ List.mem_cons_self _ _)
  · exact (C10_extractor_total_defaults []).2.1 initParse (Json.str "x") (by decide)
  · exact (C10_extractor_total_defaults [some (Json.obj [("a", Json.str "b")])]).2.2.1
      (by decide)

/-- The records a run saves: the records built from the successfully
navigated visits whose ingredients are non-empty, in visit order. -/
theorem processVisits_foldl (dbUp : Bool) :
    ∀ (vs : List (Option Visit)) (acc : List Doc × List Doc),
      vs.foldl (visitStep dbUp) acc
      = (acc.1 ++ ((vs.filterMap id).map buildOf).filter (fun d => !d.ingredients.isEmpty),
         acc.2 ++ (if dbUp then
           ((vs.filterMap id).map buildOf).filter (fun d => !d.ingredients.isEmpty) else [])) := by
  intro vs
  induction vs with
  | nil =>
    intro acc
    cases dbUp <;> simp
  | cons ov vs ih =>
    intro acc
    cases ov with
    | none =>
      rw [List.foldl_cons]
      rw [show visitStep dbUp acc none = acc from rfl, ih acc]
      simp
    | some v =>
      rw [List.foldl_cons]
      by_cases hd : (!(buildOf v).ingredients.isEmpty) = true
      · rw [show visitStep dbUp acc (some v)
            = (acc.1 ++ [buildOf v], if dbUp then acc.2 ++ [buildOf v] else acc.2) from by
          rw [visitStep]
          exact if_pos hd]
        rw [ih]
        simp only [List.filterMap_cons, List.map_cons, List.filter_cons, hd, if_true]
        cases dbUp <;> simp [List.filter_cons, hd]
      · rw [show visitStep dbUp acc (some v) = acc from by
          rw [visitStep]
          exact if_neg hd]
        rw [ih acc]
        simp only [List.filterMap_cons, List.map_cons, List.filter_cons, hd]
        simp [hd]

theorem processVisits_eq (dbUp : Bool) (vs : List (Option Visit)) :
    processVisits dbUp vs
      = (((vs.filterMap id).map buildOf).filter (fun d => !d.ingredients.isEmpty),
         if dbUp then
           ((vs.filterMap id).map buildOf).filter (fun d => !d.ingredients.isEmpty)
         else []) := by
  rw [processVisits, processVisits_foldl dbUp vs ([], [])]
  simp

/-- C1: a record whose ingredients are empty after structured extraction
and the fallback cascade is never persisted: it is not appended to the
run's saved list, no upsert is attempted for it, and since the snapshot
is exactly the saved list and the history gains exactly the saved list,
it reaches neither file; conversely every built record with non-empty
ingredients is saved. -/
theorem C1_persist_only_nonempty_ingredients (dbUp : Bool) (vs : List (Option Visit)) (fs : FS) :
    (∀ d, d ∈ (processVisits dbUp vs).1 → d.ingredients ≠ []) ∧
    (∀ d, d ∈ (processVisits dbUp vs).2 → d.ingredients ≠ []) ∧
    (∀ v, some v ∈ vs → (buildOf v).ingredients ≠ [] →
      buildOf v ∈ (processVisits dbUp vs).1) ∧
    (∀ v, some v ∈ vs → (buildOf v).ingredients = [] →
      buildOf v ∉ (processVisits dbUp vs).1) ∧
    (∀ d, d.ingredients = [] →
      d ∉ (persistPhase fs (processVisits dbUp vs).1).sample ∧
      (d ∈ ((persistPhase fs (processVisits dbUp vs).1).history.getD [])
        ↔ d ∈ fs.history.getD [])) := by
  have hmem : ∀ d, d ∈ (processVisits dbUp vs).1 → d.ingredients ≠ [] := by
    intro d hd
    rw [processVisits_eq] at hd
    have := (List.mem_filter.mp hd).2
    simpa using this
  refine ⟨hmem, ?_, ?_, ?_, ?_⟩
  · intro d hd
    rw [processVisits_eq] at hd
    cases dbUp with
    | false => cases hd
    | true =>
      have := (List.mem_filter.mp hd).2
      simpa using this
  · intro v hv hne
    rw [processVisits_eq]
    refine List.mem_filter.mpr ⟨?_, by simpa using hne⟩
    exact List.mem_map_of_mem buildOf (List.mem_filterMap.mpr ⟨some v, hv, rfl⟩)
  · intro v hv he hmem2
    exact hmem (buildOf v) hmem2 he
  · intro d he
    constructor
    · intro hd
      exact hmem d hd he
    · show d ∈ (fs.history.getD [] ++ (processVisits dbUp vs).1) ↔ d ∈ fs.history.getD []
      constructor
      · intro hd
        rcases List.mem_append.mp hd with h | h
        · exact h
        · exact absurd he (hmem d h)
      · intro hd
        exact List.mem_append.mpr (Or.inl hd)

/-- C1 witness: the theorem applied to one concrete visit whose record
has non-empty ingredients — the record is saved. -/
theorem C1_witness :
    (buildOf demoVisit).ingredients ≠ [] ∧
    buildOf demoVisit ∈ (processVisits true [some demoVisit]).1 := by
  have h1 : (buildOf demoVisit).ingredients ≠ [] := by decide
  exact ⟨h1, (C1_persist_only_nonempty_ingredients true [some demoVisit] ⟨[], none⟩).2.2.1
    demoVisit (List.mem_cons_self _ _) h1⟩

theorem dropWhile_head_false {α : Type} (p : α → Bool) :
    ∀ (l : List α) (c : α) (cs : List α), l.dropWhile p = c :: cs → p c = false := by
  intro l
  induction l with
  | nil => intro c cs h; cases h
  | cons a as ih =>
    intro c cs h
    by_cases ha : p a = true
    · rw [List.dropWhile_cons_of_pos ha] at h
      exact ih c cs h
    · rw [List.dropWhile_cons_of_neg ha] at h
      rcases h with ⟨rfl, rfl⟩
      exact Bool.eq_false_iff.mpr ha

theorem dropWhile_idem {α : Type} (p : α → Bool) (l : List α) :
    (l.dropWhile p).dropWhile p = l.dropWhile p := by
  cases hm : l.dropWhile p with
  | nil => rfl
  | cons c cs =>
    exact List.dropWhile_cons_of_neg
      (by rw [dropWhile_head_false p l c cs hm]; simp)

theorem pyStripList_idem (l : List Char) : pyStripList (pyStripList l) = pyStripList l := by
  have hA : (((l.dropWhile wsChar).reverse.dropWhile wsChar).reverse).dropWhile wsChar
      = ((l.dropWhile wsChar).reverse.dropWhile wsChar).reverse := by
    cases ht : ((l.dropWhile wsChar).reverse.dropWhile wsChar).reverse with
    | nil => rfl
    | cons c cs =>
      have hpre : ((l.dropWhile wsChar).reverse.dropWhile wsChar).reverse <+:
          l.dropWhile wsChar := by
        have hsuf : (l.dropWhile wsChar).reverse.dropWhile wsChar <:+
            (l.dropWhile wsChar).reverse := List.dropWhile_suffix _
        have h2 := List.reverse_prefix.mpr hsuf
        rwa [List.reverse_reverse] at h2
      rw [ht] at hpre
      rcases hpre with ⟨u, hu⟩
      have hc : wsChar c = false :=
        dropWhile_head_false wsChar l c (cs ++ u)
          (by rw [← hu]; rfl)
      exact List.dropWhile_cons_of_neg (by simp [hc])
  unfold pyStripList
  rw [hA, List.reverse_reverse, dropWhile_idem]

theorem pyStrip_idem (s : String) : pyStrip (pyStrip s) = pyStrip s := by
  show (⟨pyStripList (pyStripList s.data)⟩ : String) = ⟨pyStripList s.data⟩
  rw [pyStripList_idem]

theorem pyStripList_eq_self (l : List Char)
    (h1 : ∀ c, l.head? = some c → wsChar c = false)
    (h2 : ∀ c, l.getLast? = some c → wsChar c = false) :
    pyStripList l = l := by
  cases l with
  | nil => rfl
  | cons a as =>
    have ha : wsChar a = false := h1 a rfl
    show (((a :: as).dropWhile wsChar).reverse.dropWhile wsChar).reverse = a :: as
    rw [List.dropWhile_cons_of_neg (by simp [ha])]
    cases hr : (a :: as).reverse with
    | nil => exact absurd hr (by simp)
    | cons d ds =>
      have hd : (a :: as).getLast? = some d := by
        rw [← List.head?_reverse, hr]; rfl
      have hdw : wsChar d = false := h2 d hd
      rw [List.dropWhile_cons_of_neg (by simp [hdw]), ← hr, List.reverse_reverse]

theorem digitChar_not_ws : ∀ k, k < 10 → wsChar (Char.ofNat (48 + k)) = false := by decide

theorem natDecimalCore_shape :
    ∀ (fuel n : Nat) (acc : List Char), n < fuel →
      ∃ t, natDecimalCore fuel n acc = t ++ acc ∧ t ≠ [] ∧
        ∀ c, c ∈ t → ∃ k, k < 10 ∧ c = Char.ofNat (48 + k) := by
  intro fuel
  induction fuel with
  | zero => intro n acc h; omega
  | succ fuel ih =>
    intro n acc h
    by_cases hn : n < 10
    · refine ⟨[Char.ofNat (48 + n % 10)], ?_, by simp, ?_⟩
      · show (if n < 10 then Char.ofNat (48 + n % 10) :: acc
            else natDecimalCore fuel (n / 10) (Char.ofNat (48 + n % 10) :: acc)) = _
        rw [if_pos hn]
        rfl
      · intro c hc
        rcases List.mem_singleton.mp hc with rfl
        exact ⟨n % 10, Nat.mod_lt _ (by omega), rfl⟩
    · have h10 : n / 10 < fuel := by
        have := Nat.div_lt_self (show 0 < n by omega) (show 1 < 10 by omega)
        omega
      rcases ih (n / 10) (Char.ofNat (48 + n % 10) :: acc) h10 with ⟨t, ht, hne, hdig⟩
      refine ⟨t ++ [Char.ofNat (48 + n % 10)], ?_, by simp, ?_⟩
      · show (if n < 10 then Char.ofNat (48 + n % 10) :: acc
            else natDecimalCore fuel (n / 10) (Char.ofNat (48 + n % 10) :: acc)) = _
        rw [if_neg hn, ht]
        simp
      · intro c hc
        rcases List.mem_append.mp hc with h | h
        · exact hdig c h
        · rcases List.mem_singleton.mp h with rfl
          exact ⟨n % 10, Nat.mod_lt _ (by omega), rfl⟩

theorem natDecimalL_shape (n : Nat) :
    (natDecimalL n ≠ []) ∧ ∀ x, x ∈ natDecimalL n → wsChar x = false := by
  rcases natDecimalCore_shape (n + 1) n [] (by omega) with ⟨t, ht, hne, hdig⟩
  have hL : natDecimalL n = t := by rw [natDecimalL, ht, List.append_nil]
  constructor
  · rw [hL]; exact hne
  · intro x hx
    rw [hL] at hx
    rcases hdig x hx with ⟨k, hk, rfl⟩
    exact digitChar_not_ws k hk

theorem pyStrip_natDecimal_append (n : Nat) (suf : List Char) (hs : suf ≠ [])
    (h2 : ∀ c, suf.getLast? = some c → wsChar c = false) :
    pyStripList (natDecimalL n ++ suf) = natDecimalL n ++ suf := by
  rcases natDecimalL_shape n with ⟨hne, hws⟩
  apply pyStripList_eq_self
  · intro x hx
    cases hL : natDecimalL n with
    | nil => exact absurd hL hne
    | cons c t =>
      rw [hL] at hx
      have hcx : c = x := Option.some.inj hx
      subst hcx
      exact hws c (by rw [hL]; exact List.mem_cons_self _ _)
  · intro x hx
    rw [List.getLast?_append_of_ne_nil _ hs] at hx
    exact h2 x hx

theorem fmt2_trim (h m : Nat) :
    pyStrip ⟨natDecimalL h ++ (" 小時 ".data ++ (natDecimalL m ++ " 分鐘".data))⟩
      = ⟨natDecimalL h ++ (" 小時 ".data ++ (natDecimalL m ++ " 分鐘".data))⟩ := by
  show (⟨pyStripList (natDecimalL h ++ (" 小時 ".data ++ (natDecimalL m ++ " 分鐘".data)))⟩ :
    String) = _
  have hs : (" 小時 ".data ++ (natDecimalL m ++ " 分鐘".data)) ≠ [] :=
    List.cons_ne_nil _ _
  have hs2 : (natDecimalL m ++ " 分鐘".data) ≠ [] := by
    intro he
    exact (natDecimalL_shape m).1 (List.append_eq_nil.mp he).1
  rw [pyStrip_natDecimal_append h (" 小時 ".data ++ (natDecimalL m ++ " 分鐘".data)) hs ?_]
  intro c hc
  rw [List.getLast?_append_of_ne_nil _ hs2] at hc
  rw [List.getLast?_append_of_ne_nil _ (by decide)] at hc
  have hc2 : c = '鐘' := by
    have h2 : some '鐘' = some c := by rw [← hc]; decide
    exact (Option.some.inj h2).symm
  subst hc2
  decide

theorem fmt1h_trim (h : Nat) :
    pyStrip ⟨natDecimalL h ++ " 小時".data⟩ = ⟨natDecimalL h ++ " 小時".data⟩ := by
  show (⟨pyStripList (natDecimalL h ++ " 小時".data)⟩ : String) = _
  rw [pyStrip_natDecimal_append h " 小時".data (by decide) ?_]
  intro c hc
  have hc2 : c = '時' := by
    have h2 : some '時' = some c := by rw [← hc]; decide
    exact (Option.some.inj h2).symm
  subst hc2
  decide

theorem fmt1m_trim (m : Nat) :
    pyStrip ⟨natDecimalL m ++ " 分鐘".data⟩ = ⟨natDecimalL m ++ " 分鐘".data⟩ := by
  show (⟨pyStripList (natDecimalL m ++ " 分鐘".data)⟩ : String) = _
  rw [pyStrip_natDecimal_append m " 分鐘".data (by decide) ?_]
  intro c hc
  have hc2 : c = '鐘' := by
    have h2 : some '鐘' = some c := by rw [← hc]; decide
    exact (Option.some.inj h2).symm
  subst hc2
  decide

theorem iso8601_trimmed (t v : String) (ht : pyStrip t = t)
    (hv : iso8601_duration_to_text t = some v) : pyStrip v = v := by
  rw [iso8601_duration_to_text] at hv
  by_cases h1 : t.isEmpty = true
  · rw [if_pos h1] at hv; cases hv
  · rw [if_neg h1] at hv
    by_cases h2 : (!(['P', 'T'].isPrefixOf t.data)) = true
    · rw [if_pos h2] at hv
      rw [← Option.some.inj hv]
      exact ht
    · rw [if_neg h2] at hv
      by_cases h3 : (((searchPTH t.data).getD 0 == 0) && ((searchDM t.data).getD 0 == 0)) = true
      · rw [if_pos h3] at hv; cases hv
      · rw [if_neg h3] at hv
        by_cases h4 : (((searchPTH t.data).getD 0 != 0) && ((searchDM t.data).getD 0 != 0)) = true
        · rw [if_pos h4] at hv
          rw [← Option.some.inj hv]
          exact fmt2_trim _ _
        · rw [if_neg h4] at hv
          by_cases h5 : ((searchPTH t.data).getD 0 != 0) = true
          · rw [if_pos h5] at hv
            rw [← Option.some.inj hv]
            exact fmt1h_trim _
          · rw [if_neg h5] at hv
            rw [← Option.some.inj hv]
            exact fmt1m_trim _

theorem pyOrStr_some_right (a : Option String) (s : String) :
    pyOrStr a (some s) = some s ∨ ∃ v, pyOrStr a (some s) = some v ∧ a = some v := by
  cases a with
  | none => exact Or.inl rfl
  | some r =>
    by_cases hr : r.isEmpty = true
    · exact Or.inl (by rw [pyOrStr]; exact if_pos hr)
    · exact Or.inr ⟨r, by rw [pyOrStr]; exact if_neg hr, rfl⟩

theorem timeCand_timeNode (s : String) (h0 : pyStrip s = s) (hE : s.isEmpty = false) :
    timeCand (timeNode s) = pyOrStr (iso8601_duration_to_text s) (some s) := by
  have e1 : ensure_str (pyGet (timeNode s) "totalTime") = some s := by
    show some (pyStrip (pyStr (.str s))) = some s
    rw [show pyStr (.str s) = s from rfl, h0]
  have e2 : ensure_str (pyGet (timeNode s) "cookTime") = none := rfl
  rw [timeCand.eq_def, e1, e2]
  have e3 : pyOrStr (some s) none = some s := by
    rw [pyOrStr]
    exact if_neg (by simp [hE])
  rw [e3]
  simp [hE]

theorem parse_timeNode (s : String) (h0 : pyStrip s = s) (hE : s.isEmpty = false) :
    (parse_ld_json [some (timeNode s)]).time_text
      = pyOrStr (iso8601_duration_to_text s) (some s) := by
  have hall : allNodes [some (timeNode s)] = [timeNode s] := rfl
  rw [parse_ld_json, hall, List.foldl_cons, List.foldl_nil, updateNode_time]
  have hrec : isRecipe (timeNode s) = true := rfl
  rw [stepTime, hrec]
  simp only [Bool.not_true, Bool.false_eq_true, if_false]
  rw [show optTruthy initParse.time_text = false from rfl]
  simp only [Bool.false_eq_true, if_false]
  rw [timeCand_timeNode s h0 hE]
  rcases pyOrStr_some_right (iso8601_duration_to_text s) s with h | ⟨v, hv, _⟩
  · rw [h]
  · rw [hv]

/-- C3 amended: for a single Recipe node whose trimmed duration text is
`s`: when `s` does not start with "PT" the time field is `s` unchanged;
when it does, nonzero hour/minute components produce the localized
"H 小時 M 分鐘" / "H 小時" / "M 分鐘" texts as claimed, but when both
components are zero or absent the conversion helper yields no value and
the time field is set to the raw text `s` itself (the code falls back to
`t` in `iso8601_duration_to_text(t) or t`), not left unset as the claim
states. -/
theorem C3_amended_time_conversion (s : String) (h0 : pyStrip s = s) (h1 : s ≠ "") :
    (¬ (['P', 'T'].isPrefixOf s.data = true) →
      (parse_ld_json [some (timeNode s)]).time_text = some s) ∧
    (['P', 'T'].isPrefixOf s.data = true →
      (((searchPTH s.data).getD 0 = 0 ∧ (searchDM s.data).getD 0 = 0) →
        iso8601_duration_to_text s = none ∧
        (parse_ld_json [some (timeNode s)]).time_text = some s) ∧
      (((searchPTH s.data).getD 0 ≠ 0 ∧ (searchDM s.data).getD 0 ≠ 0) →
        (parse_ld_json [some (timeNode s)]).time_text
          = some ⟨natDecimalL ((searchPTH s.data).getD 0) ++
              (" 小時 ".data ++ (natDecimalL ((searchDM s.data).getD 0) ++ " 分鐘".data))⟩) ∧
      (((searchPTH s.data).getD 0 ≠ 0 ∧ (searchDM s.data).getD 0 = 0) →
        (parse_ld_json [some (timeNode s)]).time_text
          = some ⟨natDecimalL ((searchPTH s.data).getD 0) ++ " 小時".data⟩) ∧
      (((searchPTH s.data).getD 0 = 0 ∧ (searchDM s.data).getD 0 ≠ 0) →
        (parse_ld_json [some (timeNode s)]).time_text
          = some ⟨natDecimalL ((searchDM s.data).getD 0) ++ " 分鐘".data⟩)) := by
  have hE : s.isEmpty = false := by
    rw [Bool.eq_false_iff]
    intro h
    exact h1 ((String.isEmpty_iff s).mp h)
  have hP := parse_timeNode s h0 hE
  constructor
  · intro hpt
    have hiso : iso8601_duration_to_text s = some s := by
      rw [iso8601_duration_to_text, if_neg (by simp [hE]), if_pos (by simp [hpt])]
    rw [hP, hiso, pyOrStr]
    exact if_neg (by simp [hE])
  · intro hpt
    have hisoPT : iso8601_duration_to_text s
        = (if ((searchPTH s.data).getD 0 == 0) && ((searchDM s.data).getD 0 == 0) then none
           else if ((searchPTH s.data).getD 0 != 0) && ((searchDM s.data).getD 0 != 0) then
             some ⟨natDecimalL ((searchPTH s.data).getD 0) ++
               (" 小時 ".data ++ (natDecimalL ((searchDM s.data).getD 0) ++ " 分鐘".data))⟩
           else if (searchPTH s.data).getD 0 != 0 then
             some ⟨natDecimalL ((searchPTH s.data).getD 0) ++ " 小時".data⟩
           else some ⟨natDecimalL ((searchDM s.data).getD 0) ++ " 分鐘".data⟩) := by
      rw [iso8601_duration_to_text, if_neg (by simp [hE]), if_neg (by simp [hpt])]
    refine ⟨?_, ?_, ?_, ?_⟩
    · rintro ⟨hh, hm⟩
      have hiso : iso8601_duration_to_text s = none := by
        rw [hisoPT, if_pos (by simp [hh, hm])]
      refine ⟨hiso, ?_⟩
      rw [hP, hiso, pyOrStr.eq_def]
    · rintro ⟨hh, hm⟩
      have hiso : iso8601_duration_to_text s
          = some ⟨natDecimalL ((searchPTH s.data).getD 0) ++
              (" 小時 ".data ++ (natDecimalL ((searchDM s.data).getD 0) ++ " 分鐘".data))⟩ := by
        rw [hisoPT, if_neg (by simp [hh]), if_pos (by simp [hh, hm])]
      rw [hP, hiso, pyOrStr]
      refine if_neg ?_
      intro hc
      have hd : (natDecimalL ((searchPTH s.data).getD 0) ++
          (" 小時 ".data ++ (natDecimalL ((searchDM s.data).getD 0) ++ " 分鐘".data))) = [] := by
        have := (String.isEmpty_iff _).mp hc
        exact congrArg String.data this
      exact (natDecimalL_shape _).1 (List.append_eq_nil.mp hd).1
    · rintro ⟨hh, hm⟩
      have hiso : iso8601_duration_to_text s
          = some ⟨natDecimalL ((searchPTH s.data).getD 0) ++ " 小時".data⟩ := by
        rw [hisoPT, if_neg (by simp [hh]), if_neg (by simp [hm]), if_pos (by simp [hh])]
      rw [hP, hiso, pyOrStr]
      refine if_neg ?_
      intro hc
      have hd : (natDecimalL ((searchPTH s.data).getD 0) ++ " 小時".data) = [] := by
        have := (String.isEmpty_iff _).mp hc
        exact congrArg String.data this
      exact (natDecimalL_shape _).1 (List.append_eq_nil.mp hd).1
    · rintro ⟨hh, hm⟩
      have hiso : iso8601_duration_to_text s
          = some ⟨natDecimalL ((searchDM s.data).getD 0) ++ " 分鐘".data⟩ := by
        rw [hisoPT, if_neg (by simp [hm]), if_neg (by simp [hh]), if_neg (by simp [hh])]
      rw [hP, hiso, pyOrStr]
      refine if_neg ?_
      intro hc
      have hd : (natDecimalL ((searchDM s.data).getD 0) ++ " 分鐘".data) = [] := by
        have := (String.isEmpty_iff _).mp hc
        exact congrArg String.data this
      exact (natDecimalL_shape _).1 (List.append_eq_nil.mp hd).1

/-- C3 witness: the amended theorem applied at "PT1H30M" gives the
localized hour-and-minute text. -/
theorem C3_witness :
    (parse_ld_json [some (timeNode "PT1H30M")]).time_text = some "1 小時 30 分鐘" := by
  have h := (C3_amended_time_conversion "PT1H30M" (by decide) (by decide)).2 (by decide)
  have h2 := h.2.1 (by decide)
  rw [h2]
  decide

theorem ensure_str_trimmed (o : Option Json) (s : String) (h : ensure_str o = some s) :
    pyStrip s = s := by
  cases o with
  | none => cases h
  | some v =>
    cases v with
    | null => cases h
    | bool b => rw [← Option.some.inj h]; exact pyStrip_idem _
    | num n => rw [← Option.some.inj h]; exact pyStrip_idem _
    | str t => rw [← Option.some.inj h]; exact pyStrip_idem _
    | arr xs => rw [← Option.some.inj h]; exact pyStrip_idem _
    | obj fs => rw [← Option.some.inj h]; exact pyStrip_idem _

theorem pyOrStr_trimmed (a b : Option String) (v : String)
    (ha : ∀ s, a = some s → pyStrip s = s) (hb : ∀ s, b = some s → pyStrip s = s)
    (h : pyOrStr a b = some v) : pyStrip v = v := by
  cases a with
  | none => exact hb v h
  | some r =>
    by_cases hr : r.isEmpty = true
    · have he : pyOrStr (some r) b = b := by rw [pyOrStr]; exact if_pos hr
      rw [he] at h
      exact hb v h
    · have he : pyOrStr (some r) b = some r := by rw [pyOrStr]; exact if_neg hr
      rw [he] at h
      rw [← Option.some.inj h]
      exact ha r rfl

theorem timeCand_trimmed (n : Json) (v : String) (h : timeCand n = some v) :
    pyStrip v = v := by
  rw [timeCand.eq_def] at h
  cases hm : pyOrStr (ensure_str (pyGet n "totalTime")) (ensure_str (pyGet n "cookTime")) with
  | none => rw [hm] at h; cases h
  | some t =>
    rw [hm] at h
    have h2 : (if !t.isEmpty then pyOrStr (iso8601_duration_to_text t) (some t)
        else none) = some v := h
    have htr : pyStrip t = t :=
      pyOrStr_trimmed _ _ t (fun s hs => ensure_str_trimmed _ s hs)
        (fun s hs => ensure_str_trimmed _ s hs) hm
    by_cases hte : (!t.isEmpty) = true
    · rw [if_pos hte] at h2
      exact pyOrStr_trimmed _ _ v (fun s hs => iso8601_trimmed t s htr hs)
        (fun s hs => by rw [← Option.some.inj hs]; exact htr) h2
    · rw [if_neg hte] at h2; cases h2

theorem yieldCand_trimmed (n : Json) (s : String) (h : yieldCand n = some s) :
    pyStrip s = s := by
  rw [yieldCand.eq_def] at h
  revert h
  split
  · intro h; exact ensure_str_trimmed _ s h
  · intro h; exact ensure_str_trimmed _ s h

theorem mem_strip_filter {α : Type} (f : α → String) (l : List α) (s : String)
    (h : s ∈ (l.map (fun x => pyStrip (f x))).filter (fun t => !t.isEmpty)) :
    pyStrip s = s ∧ s ≠ "" := by
  rcases List.mem_filter.mp h with ⟨hmem, hne⟩
  rcases List.mem_map.mp hmem with ⟨x, hx, rfl⟩
  refine ⟨pyStrip_idem _, ?_⟩
  intro he
  rw [he] at hne
  exact absurd hne (by decide)

theorem ingredientsCand_trimmed (n : Json) (s : String) (h : s ∈ ingredientsCand n) :
    pyStrip s = s ∧ s ≠ "" := by
  rw [ingredientsCand.eq_def] at h
  revert h
  split
  · intro h
    exact mem_strip_filter pyStr _ s h
  · intro h
    exact absurd h (List.not_mem_nil s)

theorem extract_steps_trimmed (o : Option Json) (s : String)
    (h : s ∈ extract_steps_from_ld o) : pyStrip s = s ∧ s ≠ "" := by
  unfold extract_steps_from_ld at h
  exact mem_strip_filter (fun t => t) _ s h

theorem updateNode_trim (st : ParseResult) (n : Json)
    (h1 : ∀ s, st.title = some s → pyStrip s = s)
    (h2 : ∀ s, s ∈ st.ingredients → pyStrip s = s ∧ s ≠ "")
    (h3 : ∀ s, st.time_text = some s → pyStrip s = s)
    (h4 : ∀ s, st.yield_info = some s → pyStrip s = s)
    (h5 : ∀ s, s ∈ st.steps → pyStrip s = s ∧ s ≠ "") :
    (∀ s, (updateNode st n).title = some s → pyStrip s = s) ∧
    (∀ s, s ∈ (updateNode st n).ingredients → pyStrip s = s ∧ s ≠ "") ∧
    (∀ s, (updateNode st n).time_text = some s → pyStrip s = s) ∧
    (∀ s, (updateNode st n).yield_info = some s → pyStrip s = s) ∧
    (∀ s, s ∈ (updateNode st n).steps → pyStrip s = s ∧ s ≠ "") := by
  refine ⟨?_, ?_, ?_, ?_, ?_⟩
  · intro s hs
    rw [updateNode_title, stepAssignOpt] at hs
    by_cases hg : (!isRecipe n) = true
    · rw [if_pos hg] at hs; exact h1 s hs
    · rw [if_neg hg] at hs
      by_cases ht : optTruthy st.title = true
      · rw [if_pos ht] at hs; exact h1 s hs
      · rw [if_neg ht] at hs
        rw [titleCand] at hs
        exact ensure_str_trimmed _ s hs
  · intro s hs
    rw [updateNode_ingredients, stepIngredients] at hs
    by_cases hg : (!isRecipe n) = true
    · rw [if_pos hg] at hs; exact h2 s hs
    · rw [if_neg hg] at hs
      by_cases ht : (!st.ingredients.isEmpty) = true
      · rw [if_pos ht] at hs; exact h2 s hs
      · rw [if_neg ht] at hs
        revert hs
        split
        · intro hs; exact ingredientsCand_trimmed n s hs
        · intro hs; exact h2 s hs
  · intro s hs
    rw [updateNode_time, stepTime] at hs
    by_cases hg : (!isRecipe n) = true
    · rw [if_pos hg] at hs; exact h3 s hs
    · rw [if_neg hg] at hs
      by_cases ht : optTruthy st.time_text = true
      · rw [if_pos ht] at hs; exact h3 s hs
      · rw [if_neg ht] at hs
        cases hm : timeCand n with
        | none => rw [hm] at hs; exact h3 s hs
        | some v =>
          rw [hm] at hs
          rw [← Option.some.inj hs]
          exact timeCand_trimmed n v hm
  · intro s hs
    rw [updateNode_yield, stepAssignOpt] at hs
    by_cases hg : (!isRecipe n) = true
    · rw [if_pos hg] at hs; exact h4 s hs
    · rw [if_neg hg] at hs
      by_cases ht : optTruthy st.yield_info = true
      · rw [if_pos ht] at hs; exact h4 s hs
      · rw [if_neg ht] at hs
        exact yieldCand_trimmed n s hs
  · intro s hs
    rw [updateNode_steps, stepSteps] at hs
    by_cases hg : (!isRecipe n) = true
    · rw [if_pos hg] at hs; exact h5 s hs
    · rw [if_neg hg] at hs
      by_cases ht : (!st.steps.isEmpty) = true
      · rw [if_pos ht] at hs; exact h5 s hs
      · rw [if_neg ht] at hs
        by_cases hc : (!(stepsCand n).isEmpty) = true
        · rw [if_pos hc] at hs
          exact extract_steps_trimmed _ s hs
        · rw [if_neg hc] at hs; exact h5 s hs

theorem foldl_updateNode_trim :
    ∀ (ns : List Json) (st : ParseResult),
      (∀ s, st.title = some s → pyStrip s = s) →
      (∀ s, s ∈ st.ingredients → pyStrip s = s ∧ s ≠ "") →
      (∀ s, st.time_text = some s → pyStrip s = s) →
      (∀ s, st.yield_info = some s → pyStrip s = s) →
      (∀ s, s ∈ st.steps → pyStrip s = s ∧ s ≠ "") →
      (∀ s, (ns.foldl updateNode st).title = some s → pyStrip s = s) ∧
      (∀ s, s ∈ (ns.foldl updateNode st).ingredients → pyStrip s = s ∧ s ≠ "") ∧
      (∀ s, (ns.foldl updateNode st).time_text = some s → pyStrip s = s) ∧
      (∀ s, (ns.foldl updateNode st).yield_info = some s → pyStrip s = s) ∧
      (∀ s, s ∈ (ns.foldl updateNode st).steps → pyStrip s = s ∧ s ≠ "") := by
  intro ns
  induction ns with
  | nil =>
    intro st h1 h2 h3 h4 h5
    exact ⟨h1, h2, h3, h4, h5⟩
  | cons n ns ih =>
    intro st h1 h2 h3 h4 h5
    rcases updateNode_trim st n h1 h2 h3 h4 h5 with ⟨g1, g2, g3, g4, g5⟩
    rw [List.foldl_cons]
    exact ih (updateNode st n) g1 g2 g3 g4 g5

/-- C4 amended: every text value extracted by the structured extractor is
trimmed — title, each ingredient, the time text, the yield text, each
step, and the image URL resolved from the object shapes (a dict, or a
list whose first element is a dict) — and ingredient/step entries are
additionally non-empty.  The exception forced by the counterexample: an
image URL in the direct-string or first-element-string shape is returned
verbatim, untrimmed, and a whitespace-only such string counts as found. -/
theorem C4_amended_trimming (blobs : List (Option Json)) :
    (∀ s, (parse_ld_json blobs).title = some s → pyStrip s = s) ∧
    (∀ s, s ∈ (parse_ld_json blobs).ingredients → pyStrip s = s ∧ s ≠ "") ∧
    (∀ s, (parse_ld_json blobs).time_text = some s → pyStrip s = s) ∧
    (∀ s, (parse_ld_json blobs).yield_info = some s → pyStrip s = s) ∧
    (∀ s, s ∈ (parse_ld_json blobs).steps → pyStrip s = s ∧ s ≠ "") ∧
    (∀ fs s, extract_image_url_from_ld (some (Json.obj fs)) = some s → pyStrip s = s) ∧
    (∀ x rest s, extract_image_url_from_ld (some (Json.arr (Json.obj x :: rest))) = some s →
      pyStrip s = s) := by
  rcases foldl_updateNode_trim (allNodes blobs) initParse
      (fun s hs => by cases hs) (fun s hs => by cases hs) (fun s hs => by cases hs)
      (fun s hs => by cases hs) (fun s hs => by cases hs) with ⟨g1, g2, g3, g4, g5⟩
  refine ⟨g1, g2, g3, g4, g5, ?_, ?_⟩
  · intro fs s h
    have h2 : (if !jsonTruthy (Json.obj fs) then none
        else ensure_str (pyGet (Json.obj fs) "url")) = some s := h
    by_cases htr : (!jsonTruthy (Json.obj fs)) = true
    · rw [if_pos htr] at h2; cases h2
    · rw [if_neg htr] at h2
      exact ensure_str_trimmed _ s h2
  · intro x rest s h
    have h2 : ensure_str (pyGet (Json.obj x) "url") = some s := h
    exact ensure_str_trimmed _ s h2

/-- C4 witness: the amended trimming theorem applied to the demo blobs —
the extracted title and first ingredient are their own trims. -/
theorem C4_witness :
    pyStrip "紅燒肉" = "紅燒肉" ∧ pyStrip "豬肉" = "豬肉" := by
  have h := C4_amended_trimming demoBlobs
  exact ⟨h.1 "紅燒肉" (by decide), (h.2.1 "豬肉" (by decide)).1⟩
